import Mathlib

/-!
Shallow embedding of the FileField upload component and the Field
configuration accessors of this repository.

The FileField component keeps two JS Maps keyed by the transient upload
item id (file metadata and per-item progress), a mutable in-flight
counter, and surfaces a committed form value through an onChange
callback.  The JS Maps are modelled as insertion ordered association
lists with the exact Map.set / Map.delete semantics.  Mutation happens
only in reaction to discrete events on one logical timeline, so the
component is modelled as a step function from a state and an event to a
new state plus a list of emitted effects (toasts, onChange calls,
network requests).

One modelling point deserves emphasis: the rpldy event listeners
(useItemFinishListener and friends) are re-registered on every render
and therefore see the props captured at the render when they were last
registered.  The finish listener reads the `value` prop from that
closure.  The model keeps both the external committed value (`value`,
updated immediately whenever onChange fires) and the listener-captured
snapshot (`closureValue`, refreshed only by a render event).  DOM click
handlers (cancel / remove) are rebuilt on the render in which they are
clicked and thus read the current `value`.
-/

namespace Wui

/-- JS Map.get over an insertion ordered association list. -/
def mapGet {α : Type} (m : List (String × α)) (k : String) : Option α :=
  (m.find? (fun p => p.1 == k)).map (fun p => p.2)

/-- JS Map.set: update in place when the key exists, append otherwise. -/
def mapSet {α : Type} (m : List (String × α)) (k : String) (v : α) :
    List (String × α) :=
  if m.any (fun p => p.1 == k) then
    m.map (fun p => if p.1 == k then (k, v) else p)
  else
    m ++ [(k, v)]

/-- JS Map.delete. -/
def mapDelete {α : Type} (m : List (String × α)) (k : String) :
    List (String × α) :=
  m.filter (fun p => !(p.1 == k))

/-- JS Map values in insertion order. -/
def mapValues {α : Type} (m : List (String × α)) : List α :=
  m.map (fun p => p.2)

/-- JS Map.size. -/
def mapSize {α : Type} (m : List (String × α)) : Nat :=
  m.length

/-- An entry of the fileMetadata map.  Every field can be undefined in
the source (item.file?.name, responseData?.filename, ...), hence the
Option types.  isUploading is only ever written by the finish listener. -/
structure Meta where
  url : Option String
  filename : Option String
  originalName : Option String
  size : Option Nat
  mimetype : Option String
  isUploading : Option Bool
deriving DecidableEq

/-- The committed form value: null, one reference string, or an ordered
array of reference strings. -/
inductive FieldValue where
  | vNull : FieldValue
  | vStr : String → FieldValue
  | vList : List String → FieldValue
deriving DecidableEq

/-- The body data of a finish event response (item.uploadResponse?.data). -/
structure RespData where
  url : Option String
  filename : Option String
  originalName : Option String
  size : Option Nat
  mimetype : Option String
deriving DecidableEq

/-- A candidate file as seen by fileFilter and, when admitted, by the
start listener; the id is the engine assigned item identity. -/
structure FileDesc where
  id : String
  name : String
  size : Nat
  mimetype : String
deriving DecidableEq

/-- The FileField props that drive the state machine. -/
structure Config where
  isMultiple : Bool
  maxFiles : Option Nat
  maxSize : Option Nat
deriving DecidableEq

/-- The component state.  `value` is the external committed form value
(the parent applies every onChange immediately); `closureValue` is the
`value` prop captured by the rpldy listener closures at the last render. -/
structure FFState where
  fileMetadata : List (String × Meta)
  uploadProgress : List (String × Nat)
  uploadingCount : Int
  value : FieldValue
  closureValue : FieldValue
deriving DecidableEq

/-- The non-blocking user notifications (toast calls), by rejection or
event kind; message strings are abstracted to their identity. -/
inductive Toast where
  | sizeTooLarge : String → Toast
  | maxReached : String → Toast
  | duplicate : String → Toast
  | uploadFailed : Toast
  | cancelled : Toast
deriving DecidableEq

/-- Observable effects emitted by the component. -/
inductive Out where
  | toast : Toast → Out
  | changed : FieldValue → Out
  | abortReq : String → Out
  | deleteReq : String → Out
  | beaconReq : List (Option String) → Out
  | keepaliveReq : List (Option String) → Out
deriving DecidableEq

/-- External events driving the component: a user file selection batch
(admission filter runs per candidate, admitted files then start), the
per-item lifecycle events from the upload engine, the user actions on a
preview, the form reset signal (with whether the resetting form contains
this component), and a React render which refreshes listener closures. -/
inductive Ev where
  | select : List FileDesc → Ev
  | progress : String → Nat → Ev
  | error : String → Ev
  | finish : String → String → Option RespData → Ev
  | cancel : String → Ev
  | remove : String → Ev
  | reset : Bool → Ev
  | render : Ev
deriving DecidableEq

/-- JS truthiness of an optional numeric configuration value: undefined
and 0 are falsy (`maxSize && ...`, `maxFiles && ...`,
`maxFiles || Infinity`). -/
def truthyNat : Option Nat → Option Nat
  | none => none
  | some 0 => none
  | some (n + 1) => some (n + 1)

/-- fileFilter from the source: checks the size limit, then the count
limit against fileMetadata.size + uploadingCount, then the duplicate
rule (same originalName and same size as a tracked item), first match
wins; returns the accept decision and the toasts emitted. -/
def fileFilter (cfg : Config) (s : FFState) (f : FileDesc) :
    Bool × List Out :=
  let currentCount : Int := (mapSize s.fileMetadata : Int) + s.uploadingCount
  if (match truthyNat cfg.maxSize with
      | some ms => decide (ms < f.size)
      | none => false) then
    (false, [Out.toast (Toast.sizeTooLarge f.name)])
  else if (match truthyNat cfg.maxFiles with
      | some mf => decide ((mf : Int) ≤ currentCount)
      | none => false) then
    (false, [Out.toast (Toast.maxReached f.name)])
  else if (mapValues s.fileMetadata).any
      (fun m => m.originalName == some f.name && m.size == some f.size) then
    (false, [Out.toast (Toast.duplicate f.name)])
  else
    (true, [])

/-- useItemStartListener: increment the in-flight counter and allocate
the metadata entry with client known attributes.  item.url is undefined
for file uploads, so the stored url is none; isUploading is not set. -/
def itemStartListener (s : FFState) (f : FileDesc) : FFState :=
  { s with
    uploadingCount := s.uploadingCount + 1,
    fileMetadata := mapSet s.fileMetadata f.id
      { url := none, filename := some f.name, originalName := some f.name,
        size := some f.size, mimetype := some f.mimetype,
        isUploading := none } }

/-- useItemProgressListener: below 100 upsert the progress entry to the
reported percent, at 100 or above delete the entry instead. -/
def itemProgressListener (s : FFState) (id : String) (completed : Nat) :
    FFState :=
  if completed < 100 then
    { s with uploadProgress := mapSet s.uploadProgress id completed }
  else
    { s with uploadProgress := mapDelete s.uploadProgress id }

/-- useItemErrorListener: toast the failure, delete the metadata and
progress entries, decrement the in-flight counter clamped at zero. -/
def itemErrorListener (s : FFState) (id : String) : FFState × List Out :=
  ({ s with
      fileMetadata := mapDelete s.fileMetadata id,
      uploadProgress := mapDelete s.uploadProgress id,
      uploadingCount := max 0 (s.uploadingCount - 1) },
   [Out.toast Toast.uploadFailed])

/-- `const url = responseData?.url ?? null; if (!url) ...`:
the usable reference of a finish response, none when the response or its
url is missing or the url is the empty string (falsy). -/
def usableUrl : Option RespData → Option String
  | none => none
  | some rd =>
    match rd.url with
    | none => none
    | some u => if u = "" then none else some u

/-- `Array.isArray(value) ? value : []`. -/
def valueArr : FieldValue → List String
  | FieldValue.vList l => l
  | _ => []

/-- useItemFinishListener: always decrement the in-flight counter
clamped at zero; when the item state is finished and the response
carries a usable url, merge the response fields over the tracked
metadata entry (when present) and emit the new committed value: in
multiple mode the url appended to the array coerced listener-captured
value, in single mode the url itself. -/
def itemFinishListener (cfg : Config) (s : FFState) (id : String)
    (itemState : String) (resp : Option RespData) : FFState × List Out :=
  let c : Int := max 0 (s.uploadingCount - 1)
  if itemState = "finished" then
    match usableUrl resp, resp with
    | some u, some rd =>
      let fm := match mapGet s.fileMetadata id with
        | some _ => mapSet s.fileMetadata id
            { url := rd.url, filename := rd.filename,
              originalName := rd.originalName, size := rd.size,
              mimetype := rd.mimetype, isUploading := some false }
        | none => s.fileMetadata
      if cfg.isMultiple then
        let nv := FieldValue.vList (valueArr s.closureValue ++ [u])
        ({ s with uploadingCount := c, fileMetadata := fm, value := nv },
         [Out.changed nv])
      else
        let nv := FieldValue.vStr u
        ({ s with uploadingCount := c, fileMetadata := fm, value := nv },
         [Out.changed nv])
    | _, _ => ({ s with uploadingCount := c }, [])
  else
    ({ s with uploadingCount := c }, [])

/-- handleCancel: abort the transport, delete the progress entry,
decrement the in-flight counter clamped at zero, toast.  The metadata
entry is not touched. -/
def handleCancel (s : FFState) (id : String) : FFState × List Out :=
  ({ s with
      uploadProgress := mapDelete s.uploadProgress id,
      uploadingCount := max 0 (s.uploadingCount - 1) },
   [Out.abortReq id, Out.toast Toast.cancelled])

/-- `value.filter(url => url !== metadata?.url)`: when the metadata or
its url is undefined no string compares equal to undefined, so the list
is kept whole. -/
def removeFiltered (l : List String) (md : Option Meta) : List String :=
  match md with
  | some m =>
    match m.url with
    | some u => l.filter (fun x => !(x == u))
    | none => l
  | none => l

/-- handleRemove: delete the metadata entry, issue a DELETE request on
the stored filename (the literal string undefined when it is missing,
as the JS template string would produce), then emit the new value:
in multiple mode with an array value the stored url filtered out,
otherwise null. -/
def handleRemove (cfg : Config) (s : FFState) (id : String) :
    FFState × List Out :=
  let md := mapGet s.fileMetadata id
  let delName := match md with
    | some m =>
      match m.filename with
      | some fn => fn
      | none => "undefined"
    | none => "undefined"
  let nv := match cfg.isMultiple, s.value with
    | true, FieldValue.vList l => FieldValue.vList (removeFiltered l md)
    | _, _ => FieldValue.vNull
  ({ s with fileMetadata := mapDelete s.fileMetadata id, value := nv },
   [Out.deleteReq delName, Out.changed nv])

/-- handleFormReset: when the resetting form contains the component,
clear both maps, zero the counter and emit the empty value ([] in
multiple mode, null otherwise); listener closures keep their snapshot
until the next render. -/
def handleFormReset (cfg : Config) (s : FFState) (contains : Bool) :
    FFState × List Out :=
  if contains then
    let nv := if cfg.isMultiple then FieldValue.vList [] else FieldValue.vNull
    ({ fileMetadata := [], uploadProgress := [], uploadingCount := 0,
       value := nv, closureValue := s.closureValue },
     [Out.changed nv])
  else
    (s, [])

/-- A selection batch: fileFilter runs once per candidate against the
state at batch entry (admission mutates nothing, so every candidate of
one batch sees the same counts), then every admitted file starts. -/
def stepSelect (cfg : Config) (s : FFState) (batch : List FileDesc) :
    FFState × List Out :=
  let toasts := (batch.map (fun f => (fileFilter cfg s f).2)).flatten
  let accepted := batch.filter (fun f => (fileFilter cfg s f).1)
  (accepted.foldl itemStartListener s, toasts)

/-- One event of the component state machine. -/
def step (cfg : Config) (s : FFState) (e : Ev) : FFState × List Out :=
  match e with
  | Ev.select batch => stepSelect cfg s batch
  | Ev.progress id completed => (itemProgressListener s id completed, [])
  | Ev.error id => itemErrorListener s id
  | Ev.finish id itemState resp => itemFinishListener cfg s id itemState resp
  | Ev.cancel id => handleCancel s id
  | Ev.remove id => handleRemove cfg s id
  | Ev.reset contains => handleFormReset cfg s contains
  | Ev.render => ({ s with closureValue := s.value }, [])

/-- Run a list of events, keeping the final state. -/
def exec (cfg : Config) (s : FFState) (evs : List Ev) : FFState :=
  evs.foldl (fun st e => (step cfg st e).1) s

/-- The mount state: empty maps, zero counter, the form default value
([] in multiple mode, null otherwise) both externally and in the
listener closures. -/
def initState (cfg : Config) : FFState :=
  let v := if cfg.isMultiple then FieldValue.vList [] else FieldValue.vNull
  { fileMetadata := [], uploadProgress := [], uploadingCount := 0,
    value := v, closureValue := v }

/-- cleanupAllFiles: collect the filename field of every tracked
metadata entry; with no names do nothing, otherwise issue one batch
cleanup request, through the beacon when the browser accepts it and
through a keepalive fetch otherwise. -/
def cleanupAllFiles (beaconOk : Bool) (s : FFState) : List Out :=
  let filenames := (mapValues s.fileMetadata).map (fun m => m.filename)
  if filenames.length = 0 then
    []
  else if beaconOk then
    [Out.beaconReq filenames]
  else
    [Out.keepaliveReq filenames]

/-- The storage names the server assigned during a run: the filenames
carried by finish event responses (the upload response is the only
channel through which the server communicates a storage name). -/
def serverAssignedNames (evs : List Ev) : List String :=
  evs.filterMap (fun e =>
    match e with
    | Ev.finish _ _ (some rd) => rd.filename
    | _ => none)

/-- The Field class configuration subset read by the isMultiple and
maxFiles accessors. -/
structure FieldCfg where
  isMultiple : Option Bool
  maxFiles : Option Nat
deriving DecidableEq

/-- Field get isMultiple: `this._config.isMultiple || false`. -/
def fieldIsMultiple (c : FieldCfg) : Bool :=
  c.isMultiple.getD false

/-- Field get maxFiles:
`this.isMultiple ? this._config.maxFiles || +Infinity : 1`. -/
def fieldMaxFiles (c : FieldCfg) : WithTop Nat :=
  if fieldIsMultiple c then
    match truthyNat c.maxFiles with
    | some n => (n : WithTop Nat)
    | none => ⊤
  else
    (1 : WithTop Nat)

/-- The progress map invariant of the component: no entry ever holds a
percent of 100 or more. -/
def progressBelow (s : FFState) : Prop :=
  ∀ q ∈ s.uploadProgress, q.2 < 100

/-- The admission invariant: the in-flight counter is nonnegative and
the tracked item count stays within the configured maximum. -/
def countTrackInv (mf : Nat) (s : FFState) : Prop :=
  0 ≤ s.uploadingCount ∧ mapSize s.fileMetadata ≤ mf

/-- A multiple mode configuration with no limits, for concrete runs. -/
def cfgMulti : Config :=
  { isMultiple := true, maxFiles := none, maxSize := none }

/-- A multiple mode configuration with a maximum of two files. -/
def cfgTwo : Config :=
  { isMultiple := true, maxFiles := some 2, maxSize := none }

/-- A single mode configuration with a one megabyte size limit. -/
def cfgSingle : Config :=
  { isMultiple := false, maxFiles := none, maxSize := some 1000000 }

/-- Concrete candidate files. -/
def fileA : FileDesc := { id := "A", name := "a", size := 1, mimetype := "t" }

def fileB : FileDesc := { id := "B", name := "b", size := 2, mimetype := "t" }

def fileC : FileDesc := { id := "C", name := "c", size := 3, mimetype := "t" }

def fileLocal : FileDesc :=
  { id := "A", name := "local.png", size := 5, mimetype := "img" }

def fileBig : FileDesc :=
  { id := "G", name := "g", size := 2000000, mimetype := "t" }

/-- Concrete server responses. -/
def rdA : RespData :=
  { url := some "r1", filename := some "s1", originalName := some "a",
    size := some 1, mimetype := some "t" }

def rdB : RespData :=
  { url := some "r2", filename := some "s2", originalName := some "b",
    size := some 2, mimetype := some "t" }

/-- A response whose url is the empty string, hence not usable. -/
def rdEmptyUrl : RespData :=
  { url := some "", filename := some "s", originalName := none,
    size := none, mimetype := none }

/-- A merged metadata entry of a finished item. -/
def metaFinished : Meta :=
  { url := some "r1", filename := some "s1", originalName := some "a",
    size := some 1, mimetype := some "t", isUploading := some false }

/-- A state with one finished tracked item and one upload in flight. -/
def stateOne : FFState :=
  { fileMetadata := [("A", metaFinished)], uploadProgress := [],
    uploadingCount := 1, value := FieldValue.vList ["r1"],
    closureValue := FieldValue.vList ["r1"] }

/-- A state with one tracked item whose committed value and listener
captured value agree (a render happened since the last change). -/
def stateSynced : FFState :=
  { fileMetadata := [("A", metaFinished)], uploadProgress := [],
    uploadingCount := 1, value := FieldValue.vList ["r2"],
    closureValue := FieldValue.vList ["r2"] }

/-! ### Lemmas about the JS Map model -/

theorem mapGet_delete_self {α : Type} (m : List (String × α)) (k : String) :
    mapGet (mapDelete m k) k = none := by
  have hf : List.find? (fun p => p.1 == k) (mapDelete m k) = none := by
    rw [List.find?_eq_none]
    intro x hx
    have := (List.mem_filter.mp hx).2
    simpa using this
  unfold mapGet
  rw [hf]
  rfl

theorem find?_replace_of_any {α : Type} (k : String) (v : α) :
    ∀ m : List (String × α), m.any (fun p => p.1 == k) = true →
      (m.map (fun p => if p.1 == k then (k, v) else p)).find?
        (fun p => p.1 == k) = some (k, v) := by
  intro m
  induction m with
  | nil => intro h; cases h
  | cons p t ih =>
    intro h
    by_cases hp : p.1 = k
    · have hb : (p.1 == k) = true := by simp [hp]
      rw [List.map_cons, if_pos hb]
      simp [List.find?_cons]
    · have hb : ¬ (p.1 == k) = true := by simp [hp]
      have hbf : (p.1 == k) = false := by simpa using hb
      have ht : t.any (fun q => q.1 == k) = true := by
        simpa [List.any_cons, hp] using h
      rw [List.map_cons, if_neg hb, List.find?_cons]
      simp only [hbf]
      exact ih ht

theorem mapGet_set_self {α : Type} (m : List (String × α)) (k : String)
    (v : α) : mapGet (mapSet m k v) k = some v := by
  unfold mapSet mapGet
  by_cases h : m.any (fun p => p.1 == k) = true
  · rw [if_pos h, find?_replace_of_any k v m h]; rfl
  · have hf : m.find? (fun p => p.1 == k) = none := by
      rw [List.find?_eq_none]
      intro x hx hpx
      exact h (List.any_eq_true.mpr ⟨x, hx, hpx⟩)
    rw [if_neg h, List.find?_append, hf, Option.none_or]
    simp [List.find?_cons]

theorem mem_mapSet {α : Type} {m : List (String × α)} {k : String} {v : α}
    {x : String × α} (hx : x ∈ mapSet m k v) : x = (k, v) ∨ x ∈ m := by
  unfold mapSet at hx
  split at hx
  · obtain ⟨p, hp, he⟩ := List.mem_map.mp hx
    by_cases h : p.1 = k
    · left
      rw [if_pos (show (p.1 == k) = true by simp [h])] at he
      exact he.symm
    · right
      rw [if_neg (show ¬ (p.1 == k) = true by simp [h])] at he
      exact he ▸ hp
  · rcases List.mem_append.mp hx with h | h
    · right; exact h
    · left; simpa using h

theorem mem_mapDelete {α : Type} {m : List (String × α)} {k : String}
    {x : String × α} (hx : x ∈ mapDelete m k) : x ∈ m :=
  (List.mem_filter.mp hx).1

theorem mapSize_set_le {α : Type} (m : List (String × α)) (k : String)
    (v : α) : mapSize (mapSet m k v) ≤ mapSize m + 1 := by
  unfold mapSet mapSize
  split
  · simp
  · simp

theorem any_of_mapGet_some {α : Type} {m : List (String × α)} {k : String}
    {w : α} (h : mapGet m k = some w) :
    m.any (fun p => p.1 == k) = true := by
  unfold mapGet at h
  cases hf : m.find? (fun p => p.1 == k) with
  | none => rw [hf] at h; cases h
  | some q =>
    have hq : (fun r : String × α => r.1 == k) q = true :=
      List.find?_some (p := fun r : String × α => r.1 == k) hf
    exact List.any_eq_true.mpr ⟨q, List.mem_of_find?_eq_some hf, hq⟩

theorem mapSize_set_of_mapGet_some {α : Type} {m : List (String × α)}
    {k : String} {w : α} (v : α) (h : mapGet m k = some w) :
    mapSize (mapSet m k v) = mapSize m := by
  unfold mapSet
  rw [if_pos (any_of_mapGet_some h)]
  simp [mapSize]

theorem mapSize_delete_le {α : Type} (m : List (String × α)) (k : String) :
    mapSize (mapDelete m k) ≤ mapSize m :=
  List.length_filter_le _ m

theorem length_filter_ne_add_count (u : String) (l : List String) :
    (l.filter (fun x => !(x == u))).length + l.count u = l.length := by
  induction l with
  | nil => rfl
  | cons a t ih =>
    by_cases h : a = u
    · subst h
      rw [List.count_cons_self]
      have h1 : List.filter (fun x => !(x == a)) (a :: t)
          = List.filter (fun x => !(x == a)) t := by
        simp [List.filter_cons]
      rw [h1, List.length_cons]
      omega
    · have h2 : (a :: t).count u = t.count u :=
        List.count_cons_of_ne (fun he => h he.symm) t
      have h1 : List.filter (fun x => !(x == u)) (a :: t)
          = a :: List.filter (fun x => !(x == u)) t := by
        simp [List.filter_cons, h]
      rw [h1, h2, List.length_cons, List.length_cons]
      omega

end Wui

namespace Wui

/-- C10: the Field maxFiles accessor returns 1 whenever the field is not
in multiple mode, whatever maxFiles is configured, and returns infinity
(the top element) in multiple mode when no maxFiles is configured. -/
theorem c10_field_maxFiles (c : FieldCfg) :
    (fieldIsMultiple c = false → fieldMaxFiles c = (1 : WithTop Nat)) ∧
    (fieldIsMultiple c = true → c.maxFiles = none → fieldMaxFiles c = ⊤) := by
  constructor
  · intro h
    simp [fieldMaxFiles, h]
  · intro h hm
    simp [fieldMaxFiles, h, hm, truthyNat]

/-- Witness for C10 at two concrete configurations. -/
theorem c10_field_maxFiles_witness :
    fieldMaxFiles { isMultiple := none, maxFiles := some 5 } = (1 : WithTop Nat) ∧
    fieldMaxFiles { isMultiple := some true, maxFiles := none } = ⊤ :=
  ⟨(c10_field_maxFiles _).1 (by decide),
   (c10_field_maxFiles _).2 (by decide) rfl⟩

/-- C8: on a form reset signal from a form containing the component, the
metadata map and the progress map are cleared, the in-flight counter is
set to zero, and the empty value ([] in multiple mode, null in single
mode) is re-emitted through onChange. -/
theorem c8_form_reset (cfg : Config) (s : FFState) :
    (step cfg s (Ev.reset true)).1.fileMetadata = [] ∧
    (step cfg s (Ev.reset true)).1.uploadProgress = [] ∧
    (step cfg s (Ev.reset true)).1.uploadingCount = 0 ∧
    (step cfg s (Ev.reset true)).2 =
      [Out.changed
        (if cfg.isMultiple then FieldValue.vList [] else FieldValue.vNull)] ∧
    (step cfg s (Ev.reset true)).1.value =
      (if cfg.isMultiple then FieldValue.vList [] else FieldValue.vNull) := by
  cases h : cfg.isMultiple <;> simp [step, handleFormReset, h]

/-- C6: a finish event whose response carries no usable reference only
decrements the in-flight counter (clamped at zero): the metadata map,
the progress map and the committed value are unchanged and no onChange
fires. -/
theorem c6_degraded_finish (cfg : Config) (s : FFState)
    (id itemState : String) (resp : Option RespData)
    (h : usableUrl resp = none) :
    step cfg s (Ev.finish id itemState resp) =
      ({ s with uploadingCount := max 0 (s.uploadingCount - 1) }, []) := by
  show itemFinishListener cfg s id itemState resp = _
  unfold itemFinishListener
  rw [h]
  by_cases hs : itemState = "finished"
  · rw [if_pos hs]
  · rw [if_neg hs]

/-- Witness for C6: a finish response with an empty string url at a
concrete state with one tracked item. -/
theorem c6_degraded_finish_witness :
    usableUrl (some rdEmptyUrl) = none ∧
    step cfgMulti stateOne (Ev.finish "A" "finished" (some rdEmptyUrl)) =
      ({ stateOne with uploadingCount := max 0 (stateOne.uploadingCount - 1) },
       []) :=
  ⟨by decide,
   c6_degraded_finish cfgMulti stateOne "A" "finished" (some rdEmptyUrl)
     (by decide)⟩


theorem foldlStart_uploadProgress (fs : List FileDesc) :
    ∀ s : FFState,
      (fs.foldl itemStartListener s).uploadProgress = s.uploadProgress := by
  induction fs with
  | nil => intro s; rfl
  | cons f t ih =>
    intro s
    rw [List.foldl_cons, ih]
    rfl

theorem finish_uploadProgress (cfg : Config) (s : FFState)
    (id itemState : String) (resp : Option RespData) :
    (itemFinishListener cfg s id itemState resp).1.uploadProgress
      = s.uploadProgress := by
  unfold itemFinishListener
  split
  · split
    · split <;> split <;> rfl
    · rfl
  · rfl

theorem step_progressBelow (cfg : Config) (s : FFState) (e : Ev)
    (h : progressBelow s) : progressBelow (step cfg s e).1 := by
  cases e with
  | select batch =>
    intro q hq
    rw [show (step cfg s (Ev.select batch)).1
        = ((batch.filter (fun f => (fileFilter cfg s f).1)).foldl
            itemStartListener s) from rfl,
      foldlStart_uploadProgress] at hq
    exact h q hq
  | progress id completed =>
    intro q hq
    rw [show (step cfg s (Ev.progress id completed)).1
        = itemProgressListener s id completed from rfl] at hq
    unfold itemProgressListener at hq
    by_cases hc : completed < 100
    · rw [if_pos hc] at hq
      rcases mem_mapSet hq with he | hm
      · rw [he]
        exact hc
      · exact h q hm
    · rw [if_neg hc] at hq
      exact h q (mem_mapDelete hq)
  | error id =>
    intro q hq
    exact h q (mem_mapDelete hq)
  | finish id itemState resp =>
    intro q hq
    rw [show (step cfg s (Ev.finish id itemState resp)).1
        = (itemFinishListener cfg s id itemState resp).1 from rfl,
      finish_uploadProgress] at hq
    exact h q hq
  | cancel id =>
    intro q hq
    exact h q (mem_mapDelete hq)
  | remove id =>
    intro q hq
    exact h q hq
  | reset contains =>
    intro q hq
    rw [show (step cfg s (Ev.reset contains)).1
        = (handleFormReset cfg s contains).1 from rfl] at hq
    unfold handleFormReset at hq
    split at hq
    · cases hq
    · exact h q hq
  | render =>
    intro q hq
    exact h q hq

theorem exec_progressBelow (cfg : Config) (evs : List Ev) :
    progressBelow (exec cfg (initState cfg) evs) := by
  have main : ∀ (l : List Ev) (s : FFState), progressBelow s →
      progressBelow (exec cfg s l) := by
    intro l
    induction l with
    | nil => intro s hs; exact hs
    | cons e t ih =>
      intro s hs
      exact ih _ (step_progressBelow cfg s e hs)
  refine main evs _ ?_
  intro q hq
  simp [initState] at hq

/-- C9: a progress event with a percent strictly below 100 upserts the
progress entry to that percent, a percent of 100 or more deletes the
entry, and along every event run from the mount state the progress map
never holds an entry of 100 or more. -/
theorem c9_progress_entries (cfg : Config) (s : FFState) (id : String)
    (completed : Nat) (evs : List Ev) :
    (completed < 100 →
      mapGet (step cfg s (Ev.progress id completed)).1.uploadProgress id
        = some completed) ∧
    (100 ≤ completed →
      mapGet (step cfg s (Ev.progress id completed)).1.uploadProgress id
        = none) ∧
    progressBelow (exec cfg (initState cfg) evs) := by
  refine ⟨?_, ?_, exec_progressBelow cfg evs⟩
  · intro hc
    rw [show (step cfg s (Ev.progress id completed)).1
        = itemProgressListener s id completed from rfl]
    unfold itemProgressListener
    rw [if_pos hc]
    exact mapGet_set_self _ _ _
  · intro hc
    rw [show (step cfg s (Ev.progress id completed)).1
        = itemProgressListener s id completed from rfl]
    unfold itemProgressListener
    rw [if_neg (by omega)]
    exact mapGet_delete_self _ _

/-- Witness for C9: an upsert at 50, a deletion at 100, and the
invariant along a concrete run. -/
theorem c9_progress_entries_witness :
    mapGet (step cfgMulti stateOne (Ev.progress "A" 50)).1.uploadProgress "A"
      = some 50 ∧
    mapGet (step cfgMulti stateOne (Ev.progress "A" 100)).1.uploadProgress "A"
      = none ∧
    progressBelow (exec cfgMulti (initState cfgMulti)
      [Ev.select [fileA], Ev.progress "A" 99, Ev.progress "A" 100]) :=
  ⟨(c9_progress_entries cfgMulti stateOne "A" 50 []).1 (by decide),
   (c9_progress_entries cfgMulti stateOne "A" 100 []).2.1 (by decide),
   (c9_progress_entries cfgMulti stateOne "A" 50
     [Ev.select [fileA], Ev.progress "A" 99, Ev.progress "A" 100]).2.2⟩


/-- C5: fileFilter checks the size limit, then the count limit, then the
(name, size) duplicate rule, first match wins, accepting otherwise;
every rejection carries exactly one toast, acceptance carries none, and
a rejected candidate leaves the component state unchanged. -/
theorem c5_filter_rules (cfg : Config) (s : FFState) (f : FileDesc) :
    ((∃ ms, truthyNat cfg.maxSize = some ms ∧ ms < f.size) →
      fileFilter cfg s f = (false, [Out.toast (Toast.sizeTooLarge f.name)])) ∧
    (¬ (∃ ms, truthyNat cfg.maxSize = some ms ∧ ms < f.size) →
      (∃ mf, truthyNat cfg.maxFiles = some mf ∧
        (mf : Int) ≤ (mapSize s.fileMetadata : Int) + s.uploadingCount) →
      fileFilter cfg s f = (false, [Out.toast (Toast.maxReached f.name)])) ∧
    (¬ (∃ ms, truthyNat cfg.maxSize = some ms ∧ ms < f.size) →
      ¬ (∃ mf, truthyNat cfg.maxFiles = some mf ∧
        (mf : Int) ≤ (mapSize s.fileMetadata : Int) + s.uploadingCount) →
      (∃ m ∈ mapValues s.fileMetadata,
        m.originalName = some f.name ∧ m.size = some f.size) →
      fileFilter cfg s f = (false, [Out.toast (Toast.duplicate f.name)])) ∧
    (¬ (∃ ms, truthyNat cfg.maxSize = some ms ∧ ms < f.size) →
      ¬ (∃ mf, truthyNat cfg.maxFiles = some mf ∧
        (mf : Int) ≤ (mapSize s.fileMetadata : Int) + s.uploadingCount) →
      ¬ (∃ m ∈ mapValues s.fileMetadata,
        m.originalName = some f.name ∧ m.size = some f.size) →
      fileFilter cfg s f = (true, [])) ∧
    ((fileFilter cfg s f).1 = false → ((fileFilter cfg s f).2).length = 1) ∧
    ((fileFilter cfg s f).1 = true → (fileFilter cfg s f).2 = []) ∧
    ((fileFilter cfg s f).1 = false →
      (step cfg s (Ev.select [f])).1 = s) := by
  have hs : ((match truthyNat cfg.maxSize with
      | some ms => decide (ms < f.size)
      | none => false) = true)
      ↔ (∃ ms, truthyNat cfg.maxSize = some ms ∧ ms < f.size) := by
    cases h : truthyNat cfg.maxSize <;> simp [h]
  have hcnt : ((match truthyNat cfg.maxFiles with
      | some mf => decide ((mf : Int)
          ≤ (mapSize s.fileMetadata : Int) + s.uploadingCount)
      | none => false) = true)
      ↔ (∃ mf, truthyNat cfg.maxFiles = some mf ∧
        (mf : Int) ≤ (mapSize s.fileMetadata : Int) + s.uploadingCount) := by
    cases h : truthyNat cfg.maxFiles <;> simp [h]
  have hdup : ((mapValues s.fileMetadata).any
        (fun m => m.originalName == some f.name && m.size == some f.size)
        = true)
      ↔ (∃ m ∈ mapValues s.fileMetadata,
        m.originalName = some f.name ∧ m.size = some f.size) := by
    simp [List.any_eq_true]
  have A1 : (∃ ms, truthyNat cfg.maxSize = some ms ∧ ms < f.size) →
      fileFilter cfg s f = (false, [Out.toast (Toast.sizeTooLarge f.name)]) := by
    intro h1
    simp only [fileFilter]
    rw [if_pos (hs.mpr h1)]
  have A2 : ¬ (∃ ms, truthyNat cfg.maxSize = some ms ∧ ms < f.size) →
      (∃ mf, truthyNat cfg.maxFiles = some mf ∧
        (mf : Int) ≤ (mapSize s.fileMetadata : Int) + s.uploadingCount) →
      fileFilter cfg s f = (false, [Out.toast (Toast.maxReached f.name)]) := by
    intro h1 h2
    simp only [fileFilter]
    rw [if_neg (fun hh => h1 (hs.mp hh)), if_pos (hcnt.mpr h2)]
  have A3 : ¬ (∃ ms, truthyNat cfg.maxSize = some ms ∧ ms < f.size) →
      ¬ (∃ mf, truthyNat cfg.maxFiles = some mf ∧
        (mf : Int) ≤ (mapSize s.fileMetadata : Int) + s.uploadingCount) →
      (∃ m ∈ mapValues s.fileMetadata,
        m.originalName = some f.name ∧ m.size = some f.size) →
      fileFilter cfg s f = (false, [Out.toast (Toast.duplicate f.name)]) := by
    intro h1 h2 h3
    simp only [fileFilter]
    rw [if_neg (fun hh => h1 (hs.mp hh)),
      if_neg (fun hh => h2 (hcnt.mp hh)), if_pos (hdup.mpr h3)]
  have A4 : ¬ (∃ ms, truthyNat cfg.maxSize = some ms ∧ ms < f.size) →
      ¬ (∃ mf, truthyNat cfg.maxFiles = some mf ∧
        (mf : Int) ≤ (mapSize s.fileMetadata : Int) + s.uploadingCount) →
      ¬ (∃ m ∈ mapValues s.fileMetadata,
        m.originalName = some f.name ∧ m.size = some f.size) →
      fileFilter cfg s f = (true, []) := by
    intro h1 h2 h3
    simp only [fileFilter]
    rw [if_neg (fun hh => h1 (hs.mp hh)),
      if_neg (fun hh => h2 (hcnt.mp hh)), if_neg (fun hh => h3 (hdup.mp hh))]
  refine ⟨A1, A2, A3, A4, ?_, ?_, ?_⟩
  · intro hrej
    by_cases h1 : ∃ ms, truthyNat cfg.maxSize = some ms ∧ ms < f.size
    · rw [A1 h1]
      rfl
    · by_cases h2 : ∃ mf, truthyNat cfg.maxFiles = some mf ∧
          (mf : Int) ≤ (mapSize s.fileMetadata : Int) + s.uploadingCount
      · rw [A2 h1 h2]
        rfl
      · by_cases h3 : ∃ m ∈ mapValues s.fileMetadata,
            m.originalName = some f.name ∧ m.size = some f.size
        · rw [A3 h1 h2 h3]
          rfl
        · rw [A4 h1 h2 h3] at hrej
          cases hrej
  · intro hacc
    by_cases h1 : ∃ ms, truthyNat cfg.maxSize = some ms ∧ ms < f.size
    · rw [A1 h1] at hacc
      cases hacc
    · by_cases h2 : ∃ mf, truthyNat cfg.maxFiles = some mf ∧
          (mf : Int) ≤ (mapSize s.fileMetadata : Int) + s.uploadingCount
      · rw [A2 h1 h2] at hacc
        cases hacc
      · by_cases h3 : ∃ m ∈ mapValues s.fileMetadata,
            m.originalName = some f.name ∧ m.size = some f.size
        · rw [A3 h1 h2 h3] at hacc
          cases hacc
        · rw [A4 h1 h2 h3]
  · intro hrej
    show (stepSelect cfg s [f]).1 = s
    simp only [stepSelect, List.filter_cons, hrej]
    rfl

/-- Witness for C5: the spec scenario, a 2000000 byte file against a
1000000 byte limit is rejected with one toast and the state is kept. -/
theorem c5_filter_rules_witness :
    fileFilter cfgSingle (initState cfgSingle) fileBig
      = (false, [Out.toast (Toast.sizeTooLarge "g")]) ∧
    (step cfgSingle (initState cfgSingle) (Ev.select [fileBig])).1
      = initState cfgSingle :=
  ⟨(c5_filter_rules cfgSingle (initState cfgSingle) fileBig).1
     ⟨1000000, by decide, by decide⟩,
   (c5_filter_rules cfgSingle (initState cfgSingle) fileBig).2.2.2.2.2.2
     (by decide)⟩


/-- C7: removing a tracked finished item deletes its metadata entry,
issues a delete request keyed by the stored server filename, and emits a
new committed value: in multiple mode, when the reference occurs exactly
once, the list with exactly that reference excluded (one shorter and no
longer containing it); in single mode, null. -/
theorem c7_remove_finished (cfg : Config) (s : FFState) (id : String)
    (m : Meta) (fn u : String) (l : List String)
    (hm : mapGet s.fileMetadata id = some m)
    (hfn : m.filename = some fn) (hu : m.url = some u) :
    mapGet (step cfg s (Ev.remove id)).1.fileMetadata id = none ∧
    (step cfg s (Ev.remove id)).2 =
      [Out.deleteReq fn, Out.changed (step cfg s (Ev.remove id)).1.value] ∧
    (cfg.isMultiple = true → s.value = FieldValue.vList l → l.count u = 1 →
      (step cfg s (Ev.remove id)).1.value
          = FieldValue.vList (l.filter (fun x => !(x == u))) ∧
      (l.filter (fun x => !(x == u))).length + 1 = l.length ∧
      u ∉ l.filter (fun x => !(x == u))) ∧
    (cfg.isMultiple = false →
      (step cfg s (Ev.remove id)).1.value = FieldValue.vNull) := by
  refine ⟨?_, ?_, ?_, ?_⟩
  · show mapGet (mapDelete s.fileMetadata id) id = none
    exact mapGet_delete_self _ _
  · show (handleRemove cfg s id).2
        = [Out.deleteReq fn, Out.changed (handleRemove cfg s id).1.value]
    simp only [handleRemove, hm, hfn]
  · intro hmul hv hcount
    refine ⟨?_, ?_, ?_⟩
    · show (handleRemove cfg s id).1.value = _
      simp only [handleRemove, hm, hmul, hv, removeFiltered, hu]
    · have hlen := length_filter_ne_add_count u l
      rw [hcount] at hlen
      exact hlen
    · simp
  · intro hmul
    show (handleRemove cfg s id).1.value = FieldValue.vNull
    simp only [handleRemove, hmul]

/-- Witness for C7 at a concrete state with one finished item in
multiple mode and the same state in single mode. -/
theorem c7_remove_finished_witness :
    mapGet (step cfgMulti stateOne (Ev.remove "A")).1.fileMetadata "A"
      = none ∧
    (step cfgMulti stateOne (Ev.remove "A")).2 =
      [Out.deleteReq "s1",
       Out.changed (step cfgMulti stateOne (Ev.remove "A")).1.value] ∧
    (step cfgMulti stateOne (Ev.remove "A")).1.value
      = FieldValue.vList (["r1"].filter (fun x => !(x == "r1"))) := by
  have h := c7_remove_finished cfgMulti stateOne "A" metaFinished "s1" "r1"
    ["r1"] (by decide) (by decide) (by decide)
  exact ⟨h.1, h.2.1, (h.2.2.1 (by decide) (by decide) (by decide)).1⟩


/-- C1 counterexample: in multiple mode uploads A and B start in one
batch, B finishes with r2, then A finishes with r1 with no re-render in
between; the second merge appends to the stale captured value, so the
final value is [r1] with r2 dropped, not [r2, r1]. -/
theorem c1_sibling_dropped :
    (exec cfgMulti (initState cfgMulti)
      [Ev.select [fileA, fileB],
       Ev.finish "B" "finished" (some rdB),
       Ev.finish "A" "finished" (some rdA)]).value
      = FieldValue.vList ["r1"] ∧
    FieldValue.vList ["r1"] ≠ FieldValue.vList ["r2", "r1"] := by
  decide

/-- C1 amended: a finish event with a usable reference in multiple mode
appends the reference to the array coerced value captured by the finish
listener closure at the last render, and emits the result; this equals
appending to the current external value exactly when the captured value
is in sync with it, which for the two upload scenario means a render
happened between the two completions. -/
theorem c1_finish_appends_closure_value (cfg : Config) (s : FFState)
    (id : String) (rd : RespData) (u : String)
    (hmul : cfg.isMultiple = true)
    (hurl : usableUrl (some rd) = some u) :
    (step cfg s (Ev.finish id "finished" (some rd))).1.value
        = FieldValue.vList (valueArr s.closureValue ++ [u]) ∧
    (step cfg s (Ev.finish id "finished" (some rd))).2
        = [Out.changed (FieldValue.vList (valueArr s.closureValue ++ [u]))] ∧
    (∀ l : List String, s.closureValue = s.value →
      s.value = FieldValue.vList l →
      (step cfg s (Ev.finish id "finished" (some rd))).1.value
          = FieldValue.vList (l ++ [u])) := by
  have key : step cfg s (Ev.finish id "finished" (some rd))
      = ({ s with
            uploadingCount := max 0 (s.uploadingCount - 1),
            fileMetadata := (match mapGet s.fileMetadata id with
              | some _ => mapSet s.fileMetadata id
                  { url := rd.url, filename := rd.filename,
                    originalName := rd.originalName, size := rd.size,
                    mimetype := rd.mimetype, isUploading := some false }
              | none => s.fileMetadata),
            value := FieldValue.vList (valueArr s.closureValue ++ [u]) },
         [Out.changed (FieldValue.vList (valueArr s.closureValue ++ [u]))]) := by
    show itemFinishListener cfg s id "finished" (some rd) = _
    unfold itemFinishListener
    rw [if_pos rfl, hurl, hmul]
    rfl
  refine ⟨?_, ?_, ?_⟩
  · rw [key]
  · rw [key]
  · intro l hsync hval
    rw [key]
    have hl : valueArr s.closureValue = l := by
      rw [hsync, hval]
      rfl
    rw [hl]

/-- Witness for C1 amended: at a synced state holding [r2], a finish
with r1 yields [r2, r1]. -/
theorem c1_finish_appends_closure_value_witness :
    (step cfgMulti stateSynced (Ev.finish "A" "finished" (some rdA))).1.value
      = FieldValue.vList (["r2"] ++ ["r1"]) :=
  (c1_finish_appends_closure_value cfgMulti stateSynced "A" rdA "r1"
    (by decide) (by decide)).2.2 ["r2"] rfl rfl

/-- C2 counterexample: after a cancel of the in-progress item A, the
tracker (metadata) entry for A is still present. -/
theorem c2_cancel_keeps_metadata :
    mapGet (exec cfgMulti (initState cfgMulti)
      [Ev.select [fileA], Ev.progress "A" 50, Ev.cancel "A"]).fileMetadata "A"
      = some { url := none, filename := some "a", originalName := some "a",
               size := some 1, mimetype := some "t", isUploading := none } ∧
    mapGet (exec cfgMulti (initState cfgMulti)
      [Ev.select [fileA], Ev.progress "A" 50, Ev.cancel "A"]).fileMetadata "A"
      ≠ none := by
  decide

/-- C2 amended: an error event for X removes both the metadata and the
progress entry of X and decrements the in-flight counter by one clamped
at zero; a user cancel of X removes the progress entry and decrements
the counter by one clamped at zero but leaves the whole metadata map,
including the entry of X, in place. -/
theorem c2_error_and_cancel (cfg : Config) (s : FFState) (id : String) :
    mapGet (step cfg s (Ev.error id)).1.fileMetadata id = none ∧
    mapGet (step cfg s (Ev.error id)).1.uploadProgress id = none ∧
    (step cfg s (Ev.error id)).1.uploadingCount
      = max 0 (s.uploadingCount - 1) ∧
    0 ≤ (step cfg s (Ev.error id)).1.uploadingCount ∧
    (1 ≤ s.uploadingCount →
      (step cfg s (Ev.error id)).1.uploadingCount = s.uploadingCount - 1) ∧
    mapGet (step cfg s (Ev.cancel id)).1.uploadProgress id = none ∧
    (step cfg s (Ev.cancel id)).1.fileMetadata = s.fileMetadata ∧
    (step cfg s (Ev.cancel id)).1.uploadingCount
      = max 0 (s.uploadingCount - 1) ∧
    (1 ≤ s.uploadingCount →
      (step cfg s (Ev.cancel id)).1.uploadingCount = s.uploadingCount - 1) := by
  refine ⟨mapGet_delete_self _ _, mapGet_delete_self _ _, rfl,
    le_max_left _ _, ?_, mapGet_delete_self _ _, rfl, rfl, ?_⟩
  · intro h
    show max 0 (s.uploadingCount - 1) = s.uploadingCount - 1
    omega
  · intro h
    show max 0 (s.uploadingCount - 1) = s.uploadingCount - 1
    omega

/-- Witness for C2 amended at a state with one in-flight upload. -/
theorem c2_error_and_cancel_witness :
    mapGet (step cfgMulti stateOne (Ev.error "A")).1.fileMetadata "A"
      = none ∧
    (step cfgMulti stateOne (Ev.cancel "A")).1.uploadingCount
      = stateOne.uploadingCount - 1 := by
  have h := c2_error_and_cancel cfgMulti stateOne "A"
  exact ⟨h.1, h.2.2.2.2.2.2.2.2 (by decide)⟩

/-- C4 counterexample: with one item that started but never finished,
the cleanup request carries the client side original file name while the
server assigned no storage name at any point of the run. -/
theorem c4_cleanup_client_name :
    cleanupAllFiles true (exec cfgMulti (initState cfgMulti)
      [Ev.select [fileLocal]])
      = [Out.beaconReq [some "local.png"]] ∧
    serverAssignedNames [Ev.select [fileLocal]] = [] := by
  decide

/-- C4 amended: the sweep collects exactly the filename field of every
tracked metadata entry (the server assigned storage name only for items
whose finish response was merged) and issues at most one batch request
carrying that list, through the beacon when the browser accepts it and
through a keepalive fetch otherwise, and issues nothing when no item is
tracked. -/
theorem c4_cleanup_request (b : Bool) (s : FFState) :
    (s.fileMetadata = [] → cleanupAllFiles b s = []) ∧
    (s.fileMetadata ≠ [] →
      cleanupAllFiles b s =
        [if b then
          Out.beaconReq ((mapValues s.fileMetadata).map (fun m => m.filename))
         else
          Out.keepaliveReq
            ((mapValues s.fileMetadata).map (fun m => m.filename))]) ∧
    (cleanupAllFiles b s).length ≤ 1 := by
  refine ⟨?_, ?_, ?_⟩
  · intro h
    simp [cleanupAllFiles, h, mapValues]
  · intro h
    have h0 : ¬ ((mapValues s.fileMetadata).map
        (fun m => m.filename)).length = 0 := by
      simpa [mapValues] using h
    simp only [cleanupAllFiles]
    rw [if_neg h0]
    cases b
    · rw [if_neg (by simp)]
      simp
    · rw [if_pos rfl]
      simp
  · simp only [cleanupAllFiles]
    split
    · simp
    · split <;> simp

/-- Witness for C4 amended: the empty mount state issues nothing and a
state with one finished item issues one beacon request with its stored
server filename. -/
theorem c4_cleanup_request_witness :
    cleanupAllFiles true (initState cfgMulti) = [] ∧
    cleanupAllFiles true stateOne = [Out.beaconReq [some "s1"]] := by
  refine ⟨(c4_cleanup_request true (initState cfgMulti)).1 rfl, ?_⟩
  rw [(c4_cleanup_request true stateOne).2.1 (by decide)]
  decide


/-- C3 counterexample: with a maximum of two files, a single selection
batch of three distinct files is admitted in full (no rejection toast),
because every candidate of the batch is checked against the same
unchanged counts; after the admitted files start, three items are
tracked and the tracked plus in-flight sum is six, both above the
configured maximum of two. -/
theorem c3_batch_overshoot :
    (stepSelect cfgTwo (initState cfgTwo) [fileA, fileB, fileC]).2 = [] ∧
    mapSize (exec cfgTwo (initState cfgTwo)
      [Ev.select [fileA, fileB, fileC]]).fileMetadata = 3 ∧
    ¬ ((mapSize (exec cfgTwo (initState cfgTwo)
          [Ev.select [fileA, fileB, fileC]]).fileMetadata : Int)
        + (exec cfgTwo (initState cfgTwo)
          [Ev.select [fileA, fileB, fileC]]).uploadingCount ≤ (2 : Int)) ∧
    ¬ (mapSize (exec cfgTwo (initState cfgTwo)
        [Ev.select [fileA, fileB, fileC]]).fileMetadata ≤ 2) := by
  decide

theorem fileFilter_accept_below_max {cfg : Config} {s : FFState}
    {f : FileDesc} {mf : Nat} (hmf : truthyNat cfg.maxFiles = some mf)
    (hacc : (fileFilter cfg s f).1 = true) :
    (mapSize s.fileMetadata : Int) + s.uploadingCount < (mf : Int) := by
  simp only [fileFilter, hmf] at hacc
  split at hacc
  · simp at hacc
  · split at hacc
    · simp at hacc
    · rename_i h2
      simp at h2
      omega

theorem step_countTrackInv (cfg : Config) (mf : Nat) (s : FFState) (e : Ev)
    (hmf : truthyNat cfg.maxFiles = some mf)
    (hb : ∀ b, e = Ev.select b → b.length ≤ 1)
    (h : countTrackInv mf s) : countTrackInv mf (step cfg s e).1 := by
  obtain ⟨hc, hsz⟩ := h
  cases e with
  | select batch =>
    have hb1 : batch.length ≤ 1 := hb batch rfl
    cases batch with
    | nil => exact ⟨hc, hsz⟩
    | cons f t =>
      cases t with
      | cons g t2 => simp at hb1
      | nil =>
        show countTrackInv mf (stepSelect cfg s [f]).1
        by_cases hacc : (fileFilter cfg s f).1 = true
        · have hlt := fileFilter_accept_below_max hmf hacc
          have hred : (stepSelect cfg s [f]).1 = itemStartListener s f := by
            simp only [stepSelect, List.filter_cons]
            rw [if_pos hacc]
            rfl
          rw [hred]
          refine ⟨?_, ?_⟩
          · show 0 ≤ s.uploadingCount + 1
            omega
          · show mapSize (mapSet s.fileMetadata f.id
              { url := none, filename := some f.name,
                originalName := some f.name, size := some f.size,
                mimetype := some f.mimetype, isUploading := none }) ≤ mf
            have hle := mapSize_set_le s.fileMetadata f.id
              { url := none, filename := some f.name,
                originalName := some f.name, size := some f.size,
                mimetype := some f.mimetype, isUploading := none }
            omega
        · have hred : (stepSelect cfg s [f]).1 = s := by
            simp only [stepSelect, List.filter_cons]
            rw [if_neg hacc]
            rfl
          rw [hred]
          exact ⟨hc, hsz⟩
  | progress id completed =>
    show countTrackInv mf (itemProgressListener s id completed)
    unfold itemProgressListener
    split
    · exact ⟨hc, hsz⟩
    · exact ⟨hc, hsz⟩
  | error id =>
    exact ⟨le_max_left _ _, le_trans (mapSize_delete_le _ _) hsz⟩
  | finish id itemState resp =>
    have hfin : (itemFinishListener cfg s id itemState resp).1.uploadingCount
        = max 0 (s.uploadingCount - 1) := by
      unfold itemFinishListener
      split
      · split
        · split <;> split <;> rfl
        · rfl
      · rfl
    have hmeta :
        mapSize (itemFinishListener cfg s id itemState resp).1.fileMetadata
          ≤ mapSize s.fileMetadata := by
      unfold itemFinishListener
      split
      · split
        · split
          · rename_i w hw
            split <;> exact le_of_eq (mapSize_set_of_mapGet_some _ hw)
          · split <;> exact le_refl _
        · exact le_refl _
      · exact le_refl _
    refine ⟨?_, le_trans hmeta hsz⟩
    show 0 ≤ (itemFinishListener cfg s id itemState resp).1.uploadingCount
    rw [hfin]
    exact le_max_left _ _
  | cancel id =>
    exact ⟨le_max_left _ _, hsz⟩
  | remove id =>
    exact ⟨hc, le_trans (mapSize_delete_le _ _) hsz⟩
  | reset contains =>
    show countTrackInv mf (handleFormReset cfg s contains).1
    unfold handleFormReset
    split
    · exact ⟨le_refl 0, Nat.zero_le mf⟩
    · exact ⟨hc, hsz⟩
  | render =>
    exact ⟨hc, hsz⟩

/-- C3 amended: the filter rejects a candidate whenever the metadata
count plus the in-flight counter is at or above the configured maximum
at the moment of the check, so along runs in which every selection batch
holds at most one file the number of tracked items never exceeds the
maximum (and the counter stays nonnegative); multi-file batches are
checked against one unchanged count and can overshoot. -/
theorem c3_singleton_batches_bound (cfg : Config) (mf : Nat)
    (evs : List Ev) (hmf : cfg.maxFiles = some mf) (hmf0 : mf ≠ 0)
    (hb : ∀ b, Ev.select b ∈ evs → b.length ≤ 1) :
    mapSize (exec cfg (initState cfg) evs).fileMetadata ≤ mf ∧
    0 ≤ (exec cfg (initState cfg) evs).uploadingCount := by
  have htr : truthyNat cfg.maxFiles = some mf := by
    rw [hmf]
    cases mf with
    | zero => exact absurd rfl hmf0
    | succ n => rfl
  have main : ∀ (l : List Ev) (s : FFState),
      (∀ b, Ev.select b ∈ l → b.length ≤ 1) →
      countTrackInv mf s → countTrackInv mf (exec cfg s l) := by
    intro l
    induction l with
    | nil =>
      intro s _ hs
      exact hs
    | cons e t ih =>
      intro s hl hs
      refine ih (step cfg s e).1
        (fun b hbm => hl b (List.mem_cons_of_mem _ hbm)) ?_
      refine step_countTrackInv cfg mf s e htr ?_ hs
      intro b heb
      refine hl b ?_
      rw [← heb]
      exact List.mem_cons_self _ _
  have hinv := main evs (initState cfg) hb ⟨le_refl 0, Nat.zero_le mf⟩
  exact ⟨hinv.2, hinv.1⟩

/-- Witness for C3 amended: three singleton selections against a
maximum of two keep the tracked count at or below two. -/
theorem c3_singleton_batches_bound_witness :
    mapSize (exec cfgTwo (initState cfgTwo)
      [Ev.select [fileA], Ev.select [fileB],
       Ev.select [fileC]]).fileMetadata ≤ 2 ∧
    0 ≤ (exec cfgTwo (initState cfgTwo)
      [Ev.select [fileA], Ev.select [fileB],
       Ev.select [fileC]]).uploadingCount := by
  refine c3_singleton_batches_bound cfgTwo 2 _ rfl (by decide) ?_
  intro b hbm
  simp only [List.mem_cons, List.not_mem_nil, or_false] at hbm
  rcases hbm with h | h | h <;>
    · injection h with h2
      subst h2
      decide

end Wui
